import Mathlib

/-!
Verification of the `pre-push` hook controller of this repository
(`commands/command_pre_push.go`).

The Go source is shallowly embedded below:

* `decodeRefs`, `prePushDeleteBranch` and the body of `prePushCommand`
  (the stdin read loop, the lock-set construction, the conflict
  evaluation, the abort rule, and the final drain) are translated
  directly from the source file.
* Collaborators that the source file only calls but does not define
  (the package-level `pointers` list produced by the scan collaborator,
  the `locking.Lock` record type, `uploadLeftOrAll`, and `ctx.Await`)
  are modelled from the spec, as noted on each definition.

Side effects (prints, `os.Exit`, enqueues, the drain barrier) are
reified as an `Event` trace so that ordering and abort properties can
be stated.  Go strings are modelled as Lean `String`s; `strings.Split`
and `strings.TrimSpace` are embedded at the `List Char` level
(ASCII whitespace model).
-/

namespace PrePush

/-- Embedding of Go `strings.Split(s, " ")` at the character-list level:
split at every single occurrence of the separator, keeping empty fields
(`Split("", sep)` yields one empty field, as in Go). -/
def splitChar (sep : Char) : List Char → List (List Char)
  | [] => [[]]
  | c :: cs =>
    match splitChar sep cs with
    | [] => [[]]
    | w :: ws => if c = sep then [] :: w :: ws else (c :: w) :: ws

/-- Left half of Go `strings.TrimSpace`: drop the maximal whitespace prefix. -/
def ltrim (l : List Char) : List Char := l.dropWhile Char.isWhitespace

/-- Right half of Go `strings.TrimSpace`: drop the maximal whitespace suffix. -/
def rtrim : List Char → List Char
  | [] => []
  | c :: cs =>
    match rtrim cs with
    | [] => if c.isWhitespace then [] else [c]
    | d :: ds => c :: d :: ds

/-- Embedding of Go `strings.TrimSpace` (ASCII whitespace model): remove
leading and trailing whitespace. -/
def trimSpace (l : List Char) : List Char := rtrim (ltrim l)

/-- Go `prePushDeleteBranch = strings.Repeat("0", 40)`: the all-zero
revision sentinel denoting a branch deletion. -/
def prePushDeleteBranch : String := String.mk (List.replicate 40 '0')

/-- Embedding of Go `decodeRefs`: pull the sha1s out of one line of the
pre-push hook's stdin.  Token 1 (if present) is the local revision; token 3
(if present) prefixed with a caret is the remote revision. -/
def decodeRefs (input : String) : String × String :=
  let refs := splitChar ' ' (trimSpace input.toList)
  let left := if refs.length > 1 then String.mk (refs.getD 1 []) else ""
  let right := if refs.length > 3 then String.mk ('^' :: refs.getD 3 []) else ""
  (left, right)

/-- Modelled from the spec: the `locking.Lock` record of the `locking`
package is not part of the provided source.  Per the spec's `LockRecord`
`\x7b path, ownerName, ownerEmail \x7d` and the source's comparison of
`l.Name`/`l.Email` against the current committer's name and email, the Go
fields are: `Path` = locked object path, `Name` = owner's name,
`Email` = owner's email. -/
structure Lock where
  Id : String
  Path : String
  Name : String
  Email : String
deriving Repr, DecidableEq

/-- Modelled from the spec: a `TrackedObject` as produced by the external
scan collaborator (an element of the package-level `pointers` list), with a
`Name` and a `Path`. -/
structure TrackedObject where
  Name : String
  Path : String
deriving Repr, DecidableEq

/-- Ambient inputs of one `prePushCommand` run: the remote configuration and
committer identity (from `cfg`), the successful lock snapshot (`SearchLocks`
result), and the spec-modelled collaborators.

`pointers` is modelled from the spec: the package-level `pointers` list is
produced outside the provided source file; per the spec each ref update has
its own associated `TrackedObject`s, so it is a function of the decoded
local revision.  `uploadErr` is modelled from the spec: the result of the
`uploadLeftOrAll` call for a given local revision (`none` = scan/enqueue
accepted).  `awaitOk` is modelled from the spec: whether the drain barrier
(`ctx.Await`) reports success for all enqueued work. -/
structure Env where
  CurrentRemote : String
  name : String
  email : String
  locks : List Lock
  pointers : String → List TrackedObject
  uploadErr : String → Option String
  awaitOk : Bool

/-- One observable action of the hook: an enqueue (the `uploadLeftOrAll`
call), each printed diagnostic, the drain barrier, and process exit. -/
inductive Event where
  | enqueue (left : String)
  | lockedFilesError (left : String) (remote : String)
  | lockedFile (path : String)
  | scanErrorMsg (left : String)
  | pushingLockedFiles
  | pushingFile (path : String)
  | await
  | exited (code : Nat)
deriving Repr, DecidableEq

/-- Outcome of a `prePushCommand` run: the ordered event trace, the process
exit code, and the final accumulator contents. -/
structure RunResult where
  events : List Event
  exitCode : Nat
  lockConflicts : List String
  myLocks : List String
deriving Repr, DecidableEq

/-- Embedding of the Go map built by `lockSet[l.Name] = l` over the lock
snapshot, as a lookup function: iterating the locks in order with
last-write-wins, then indexing by `key`. -/
def lockSet (locks : List Lock) (key : String) : Option Lock :=
  locks.foldl (fun acc l => if l.Name = key then some l else acc) none

/-- Embedding of the conflict-evaluation loop `for _, p := range pointers`
of `prePushCommand`: each pointer found in the lock set is classified by
owner identity, appending `l.Path` to `myLocks` when the owner matches the
committer and `p.Name` to `lockConflicts` otherwise. -/
def evalPointers (env : Env) : List TrackedObject →
    List String × List String → List String × List String
  | [], st => st
  | p :: ps, (lockConflicts, myLocks) =>
    match lockSet env.locks p.Name with
    | some l =>
      if l.Name = env.name ∧ l.Email = env.email then
        evalPointers env ps (lockConflicts, myLocks ++ [l.Path])
      else
        evalPointers env ps (lockConflicts ++ [p.Name], myLocks)
    | none => evalPointers env ps (lockConflicts, myLocks)

/-- Events of the owned-lock informational report printed after the read
loop: the `Pushing your locked files:` header and one line per owned path,
emitted only when `myLocks` is non-empty. -/
def ownedReport (myLocks : List String) : List Event :=
  if myLocks.length > 0 then
    Event.pushingLockedFiles :: myLocks.map Event.pushingFile
  else []

/-- Embedding of the stdin read loop of `prePushCommand` and of its
epilogue (owned-lock report, then `ctx.Await`).  Each input line is
trimmed; blank lines are skipped; `decodeRefs` extracts the local revision
(the remote part is discarded, as in `left, _ := decodeRefs(line)`); the
deletion sentinel is skipped; conflict evaluation runs over the pointers;
a non-empty conflict accumulator prints the conflict report and exits 1;
otherwise `uploadLeftOrAll` is invoked (an error prints a scan diagnostic
and exits non-zero, modelled as code 2); after the loop the owned report
is printed and the drain barrier runs (a drain failure is modelled from
the spec as a non-zero exit, code 2). -/
def prePushLoop (env : Env) (lockConflicts myLocks : List String) :
    List String → RunResult
  | [] =>
    if env.awaitOk then
      ⟨ownedReport myLocks ++ [Event.await, Event.exited 0], 0,
        lockConflicts, myLocks⟩
    else
      ⟨ownedReport myLocks ++ [Event.await, Event.exited 2], 2,
        lockConflicts, myLocks⟩
  | line :: rest =>
    let trimmed := trimSpace line.toList
    if trimmed = [] then
      prePushLoop env lockConflicts myLocks rest
    else
      let left := (decodeRefs (String.mk trimmed)).1
      if left = prePushDeleteBranch then
        prePushLoop env lockConflicts myLocks rest
      else
        let st := evalPointers env (env.pointers left) (lockConflicts, myLocks)
        if st.1.length > 0 then
          ⟨Event.lockedFilesError left env.CurrentRemote ::
              (st.1.map Event.lockedFile ++ [Event.exited 1]), 1, st.1, st.2⟩
        else
          match env.uploadErr left with
          | some _ =>
            ⟨[Event.enqueue left, Event.scanErrorMsg left, Event.exited 2],
              2, st.1, st.2⟩
          | none =>
            let r := prePushLoop env st.1 st.2 rest
            { r with events := Event.enqueue left :: r.events }

/-- Embedding of `prePushCommand` after a successful lock snapshot: the
read loop started with empty `lockConflicts` and `myLocks` accumulators. -/
def prePushCommand (env : Env) (stdin : List String) : RunResult :=
  prePushLoop env [] [] stdin

/-- No touched object of the ref update with local revision `left` is
locked by someone other than the current committer. -/
def lineClear (env : Env) (left : String) : Prop :=
  ∀ p ∈ env.pointers left, ∀ l ∈ lockSet env.locks p.Name,
    l.Name = env.name ∧ l.Email = env.email

instance (o : Option Lock) (P : Lock → Prop) [DecidablePred P] :
    Decidable (∀ l ∈ o, P l) :=
  match o with
  | none => isTrue (by simp)
  | some x => decidable_of_iff (P x) (by simp)

instance (env : Env) (left : String) : Decidable (lineClear env left) :=
  inferInstanceAs (Decidable (∀ p ∈ env.pointers left, _))

/-- The decoded local revisions of the input lines that the read loop
actually processes: blank lines and deletion-sentinel lines are skipped. -/
def effectiveLefts : List String → List String
  | [] => []
  | line :: rest =>
    let trimmed := trimSpace line.toList
    if trimmed = [] then effectiveLefts rest
    else
      let left := (decodeRefs (String.mk trimmed)).1
      if left = prePushDeleteBranch then effectiveLefts rest
      else left :: effectiveLefts rest

/-- The local revisions of the enqueue events of a trace, in order. -/
def enqueuedLefts (events : List Event) : List String :=
  events.filterMap fun e =>
    match e with
    | Event.enqueue s => some s
    | _ => none

/-! ### Concrete environments used to evaluate the model -/

/-- A run with no locks at all: every line is conflict-free, every scan
succeeds, and the drain barrier succeeds. -/
def envNoLocks : Env where
  CurrentRemote := "origin"
  name := "bob"
  email := "bob@example.com"
  locks := []
  pointers := fun _ => []
  uploadErr := fun _ => none
  awaitOk := true

/-- The spec's conflict scenario: `big.psd`, touched by the update with
local revision `abc123`, is locked by Alice while the committer is Bob. -/
def envMiskeyed : Env where
  CurrentRemote := "origin"
  name := "Bob"
  email := "bob@example.com"
  locks := [{ Id := "1", Path := "big.psd", Name := "Alice", Email := "alice@example.com" }]
  pointers := fun left =>
    if left = "abc123" then [{ Name := "big.psd", Path := "big.psd" }] else []
  uploadErr := fun _ => none
  awaitOk := true

/-- A lock held by another user that the code's owner-name-keyed map does
find: the lock's key field and the touched object's name coincide (`k1`),
and the owner identity differs from the committer. Only the update with
local revision `sha2` touches it. -/
def envOtherOwner : Env where
  CurrentRemote := "origin"
  name := "bob"
  email := "bob@example.com"
  locks := [{ Id := "1", Path := "big.psd", Name := "k1", Email := "alice@example.com" }]
  pointers := fun left =>
    if left = "sha2" then [{ Name := "k1", Path := "big.psd" }] else []
  uploadErr := fun _ => none
  awaitOk := true

/-- A lock owned by the current committer, found by the lookup (the touched
object's name equals the lock's key field, which is the committer's name),
with a successful drain. -/
def envOwnedLock : Env where
  CurrentRemote := "origin"
  name := "bob"
  email := "bob@example.com"
  locks := [{ Id := "1", Path := "doc.txt", Name := "bob", Email := "bob@example.com" }]
  pointers := fun left =>
    if left = "sha1" then [{ Name := "bob", Path := "doc.txt" }] else []
  uploadErr := fun _ => none
  awaitOk := true

/-- A lock held by another user on a path nothing touches (`secret.bin`),
whose owner happens to be named like a touched file: the committer bob
pushes the file named `alice` (path `alice`) while the user alice holds
the `secret.bin` lock.  No touched object is locked by anyone. -/
def envOwnerNameCollision : Env where
  CurrentRemote := "origin"
  name := "bob"
  email := "bob@example.com"
  locks := [{ Id := "1", Path := "secret.bin", Name := "alice", Email := "alice@example.com" }]
  pointers := fun left =>
    if left = "sha1" then [{ Name := "alice", Path := "alice" }] else []
  uploadErr := fun _ => none
  awaitOk := true

/-- Same as `envOwnedLock` but the drain barrier fails. -/
def envOwnedLockDrainFail : Env where
  CurrentRemote := "origin"
  name := "bob"
  email := "bob@example.com"
  locks := [{ Id := "1", Path := "doc.txt", Name := "bob", Email := "bob@example.com" }]
  pointers := fun left =>
    if left = "sha1" then [{ Name := "bob", Path := "doc.txt" }] else []
  uploadErr := fun _ => none
  awaitOk := false

/-! ### Lemmas about trimming and decoding -/

lemma rtrim_nil_or_head (l : List Char) :
    rtrim l = [] ∨ (rtrim l).head? = l.head? := by
  cases l with
  | nil => exact Or.inl rfl
  | cons c cs =>
    cases h : rtrim cs with
    | nil =>
      by_cases hw : c.isWhitespace
      · exact Or.inl (by simp [rtrim, h, hw])
      · exact Or.inr (by simp [rtrim, h, hw])
    | cons d ds => exact Or.inr (by simp [rtrim, h])

lemma ltrim_head (l : List Char) {c : Char} (h : (ltrim l).head? = some c) :
    c.isWhitespace = false := by
  induction l with
  | nil => simp [ltrim] at h
  | cons a as ih =>
    by_cases hw : a.isWhitespace
    · exact ih (by simpa [ltrim, List.dropWhile_cons, hw] using h)
    · have ha : a = c := by
        simpa [ltrim, List.dropWhile_cons, hw] using h
      subst ha
      simpa using hw

lemma ltrim_eq_self (l : List Char)
    (h : ∀ c, l.head? = some c → c.isWhitespace = false) : ltrim l = l := by
  cases l with
  | nil => rfl
  | cons a as => simp [ltrim, List.dropWhile_cons, h a rfl]

lemma rtrim_cons (c : Char) (cs : List Char) :
    rtrim (c :: cs) =
      match rtrim cs with
      | [] => if c.isWhitespace then [] else [c]
      | d :: ds => c :: d :: ds := rfl

lemma rtrim_idem (l : List Char) : rtrim (rtrim l) = rtrim l := by
  induction l with
  | nil => rfl
  | cons c cs ih =>
    cases h : rtrim cs with
    | nil =>
      by_cases hw : c.isWhitespace
      · simp [rtrim, h, hw]
      · simp [rtrim, h, hw]
    | cons d ds =>
      have h2 : rtrim (d :: ds) = d :: ds := by rw [← h]; exact ih
      have hcc : rtrim (c :: cs) = c :: d :: ds := by rw [rtrim_cons, h]
      rw [hcc, rtrim_cons, h2]

lemma ltrim_rtrim_ltrim (l : List Char) :
    ltrim (rtrim (ltrim l)) = rtrim (ltrim l) := by
  rcases rtrim_nil_or_head (ltrim l) with h | h
  · rw [h]; rfl
  · exact ltrim_eq_self _ fun c hc => ltrim_head l (h.symm.trans hc)

lemma trimSpace_idem (l : List Char) :
    trimSpace (trimSpace l) = trimSpace l := by
  unfold trimSpace
  rw [ltrim_rtrim_ltrim, rtrim_idem]

lemma toList_mk (l : List Char) : (String.mk l).toList = l := rfl

/-- Decoding is invariant under pre-trimming: `decodeRefs` trims its
argument itself, and trimming is idempotent. -/
lemma decodeRefs_trim (s : String) :
    decodeRefs (String.mk (trimSpace s.toList)) = decodeRefs s := by
  simp [decodeRefs, toList_mk, trimSpace_idem]

lemma getD_of_lt {α : Type} (l : List α) (n : Nat) (d : α) (h : n < l.length) :
    l.getD n d = l.get ⟨n, h⟩ := by
  simp [List.getD_eq_getElem?_getD, List.getElem?_eq_getElem h]

/-! ### Lemmas about conflict evaluation -/

lemma evalPointers_clear (env : Env) :
    ∀ (ps : List TrackedObject) (cf my : List String),
      (∀ p ∈ ps, ∀ l ∈ lockSet env.locks p.Name,
        l.Name = env.name ∧ l.Email = env.email) →
      (evalPointers env ps (cf, my)).1 = cf := by
  intro ps
  induction ps with
  | nil => intro cf my _; rfl
  | cons p ps ih =>
    intro cf my h
    have hrest : ∀ q ∈ ps, ∀ l ∈ lockSet env.locks q.Name,
        l.Name = env.name ∧ l.Email = env.email :=
      fun q hq => h q (List.mem_cons_of_mem p hq)
    cases hl : lockSet env.locks p.Name with
    | none => simpa [evalPointers, hl] using ih cf my hrest
    | some l =>
      have hm := h p (List.mem_cons_self p ps) l (Option.mem_def.mpr hl)
      simpa [evalPointers, hl, hm] using ih cf (my ++ [l.Path]) hrest

lemma evalPointers_decomp (env : Env) :
    ∀ (ps : List TrackedObject) (cf my : List String),
      evalPointers env ps (cf, my) =
        (cf ++ (evalPointers env ps ([], [])).1,
          my ++ (evalPointers env ps ([], [])).2) := by
  intro ps
  induction ps with
  | nil => intro cf my; simp [evalPointers]
  | cons p ps ih =>
    intro cf my
    cases hl : lockSet env.locks p.Name with
    | none => simpa [evalPointers, hl] using ih cf my
    | some l =>
      by_cases hm : l.Name = env.name ∧ l.Email = env.email
      · simp only [evalPointers, hl, if_pos hm]
        rw [ih cf (my ++ [l.Path]), ih [] ([] ++ [l.Path])]
        simp
      · simp only [evalPointers, hl, if_neg hm]
        rw [ih (cf ++ [p.Name]) my, ih ([] ++ [p.Name]) []]
        simp

/-! ### Unfolding lemmas for the read loop -/

lemma prePushLoop_nil (env : Env) (cf my : List String) :
    prePushLoop env cf my [] =
      ⟨ownedReport my ++ [Event.await, Event.exited (if env.awaitOk then 0 else 2)],
        (if env.awaitOk then 0 else 2), cf, my⟩ := by
  by_cases hA : env.awaitOk <;> simp [prePushLoop, hA]

lemma prePushLoop_blank (env : Env) (cf my : List String) (line : String)
    (rest : List String) (hb : trimSpace line.toList = []) :
    prePushLoop env cf my (line :: rest) = prePushLoop env cf my rest := by
  simp only [prePushLoop]
  rw [if_pos hb]

lemma prePushLoop_sentinel (env : Env) (cf my : List String) (line : String)
    (rest : List String) (hb : ¬ trimSpace line.toList = [])
    (hs : (decodeRefs (String.mk (trimSpace line.toList))).1 = prePushDeleteBranch) :
    prePushLoop env cf my (line :: rest) = prePushLoop env cf my rest := by
  simp only [prePushLoop]
  rw [if_neg hb, if_pos hs]

lemma prePushLoop_step (env : Env) (cf my : List String) (line : String)
    (rest : List String) (left : String) (st : List String × List String)
    (hb : ¬ trimSpace line.toList = [])
    (hleft : (decodeRefs (String.mk (trimSpace line.toList))).1 = left)
    (hs : ¬ left = prePushDeleteBranch)
    (hst : evalPointers env (env.pointers left) (cf, my) = st) :
    prePushLoop env cf my (line :: rest) =
      (if st.1.length > 0 then
        ⟨Event.lockedFilesError left env.CurrentRemote ::
            (st.1.map Event.lockedFile ++ [Event.exited 1]), 1, st.1, st.2⟩
      else
        match env.uploadErr left with
        | some _ =>
          ⟨[Event.enqueue left, Event.scanErrorMsg left, Event.exited 2],
            2, st.1, st.2⟩
        | none =>
          { prePushLoop env st.1 st.2 rest with
              events := Event.enqueue left :: (prePushLoop env st.1 st.2 rest).events }) := by
  subst hleft
  subst hst
  simp only [prePushLoop]
  rw [if_neg hb, if_neg hs]

lemma prePushLoop_abort (env : Env) (cf my : List String) (line : String)
    (rest : List String) (left : String) (st : List String × List String)
    (hb : ¬ trimSpace line.toList = [])
    (hleft : (decodeRefs (String.mk (trimSpace line.toList))).1 = left)
    (hs : ¬ left = prePushDeleteBranch)
    (hst : evalPointers env (env.pointers left) (cf, my) = st)
    (hc : st.1.length > 0) :
    prePushLoop env cf my (line :: rest) =
      ⟨Event.lockedFilesError left env.CurrentRemote ::
          (st.1.map Event.lockedFile ++ [Event.exited 1]), 1, st.1, st.2⟩ := by
  rw [prePushLoop_step env cf my line rest left st hb hleft hs hst, if_pos hc]

lemma prePushLoop_scanError (env : Env) (cf my : List String) (line : String)
    (rest : List String) (left : String) (st : List String × List String)
    (e : String) (hb : ¬ trimSpace line.toList = [])
    (hleft : (decodeRefs (String.mk (trimSpace line.toList))).1 = left)
    (hs : ¬ left = prePushDeleteBranch)
    (hst : evalPointers env (env.pointers left) (cf, my) = st)
    (hc : ¬ st.1.length > 0) (hup : env.uploadErr left = some e) :
    prePushLoop env cf my (line :: rest) =
      ⟨[Event.enqueue left, Event.scanErrorMsg left, Event.exited 2],
        2, st.1, st.2⟩ := by
  rw [prePushLoop_step env cf my line rest left st hb hleft hs hst, if_neg hc, hup]

lemma prePushLoop_enqueue (env : Env) (cf my : List String) (line : String)
    (rest : List String) (left : String) (st : List String × List String)
    (hb : ¬ trimSpace line.toList = [])
    (hleft : (decodeRefs (String.mk (trimSpace line.toList))).1 = left)
    (hs : ¬ left = prePushDeleteBranch)
    (hst : evalPointers env (env.pointers left) (cf, my) = st)
    (hc : ¬ st.1.length > 0) (hup : env.uploadErr left = none) :
    prePushLoop env cf my (line :: rest) =
      { prePushLoop env st.1 st.2 rest with
          events := Event.enqueue left :: (prePushLoop env st.1 st.2 rest).events } := by
  rw [prePushLoop_step env cf my line rest left st hb hleft hs hst, if_neg hc, hup]

/-! ### The conflict-abort trace shape -/

lemma prePushLoop_conflict_shape (env : Env) :
    ∀ (stdin : List String) (my : List String),
      (prePushLoop env [] my stdin).lockConflicts ≠ [] →
      (prePushLoop env [] my stdin).exitCode = 1 ∧
      ∃ pre left,
        (∀ e ∈ pre, ∃ s, e = Event.enqueue s) ∧
        (prePushLoop env [] my stdin).events =
          pre ++ Event.lockedFilesError left env.CurrentRemote ::
            ((prePushLoop env [] my stdin).lockConflicts.map Event.lockedFile ++
              [Event.exited 1]) := by
  intro stdin
  induction stdin with
  | nil =>
    intro my h
    rw [prePushLoop_nil] at h
    simp at h
  | cons line rest ih =>
    intro my h
    by_cases hb : trimSpace line.toList = []
    · rw [prePushLoop_blank env [] my line rest hb] at h ⊢
      exact ih my h
    · by_cases hsent : (decodeRefs (String.mk (trimSpace line.toList))).1 =
          prePushDeleteBranch
      · rw [prePushLoop_sentinel env [] my line rest hb hsent] at h ⊢
        exact ih my h
      · obtain ⟨left, hleft⟩ : ∃ x, (decodeRefs (String.mk (trimSpace line.toList))).1 = x :=
          ⟨_, rfl⟩
        rw [hleft] at hsent
        obtain ⟨st, hst⟩ : ∃ y, evalPointers env (env.pointers left) ([], my) = y :=
          ⟨_, rfl⟩
        by_cases hc : st.1.length > 0
        · rw [prePushLoop_abort env [] my line rest left st hb hleft hsent hst hc] at h ⊢
          exact ⟨rfl, [], left, by simp, by simp⟩
        · have hc0 : st.1 = [] := by
            cases hx : st.1 with
            | nil => rfl
            | cons a b => rw [hx] at hc; simp at hc
          cases hup : env.uploadErr left with
          | some e =>
            rw [prePushLoop_scanError env [] my line rest left st e hb hleft hsent hst hc hup] at h
            simp [hc0] at h
          | none =>
            rw [prePushLoop_enqueue env [] my line rest left st hb hleft hsent hst hc hup] at h ⊢
            dsimp only at h ⊢
            rw [hc0] at h ⊢
            obtain ⟨hexit, pre, left', hpre, hev⟩ := ih st.2 h
            refine ⟨hexit, Event.enqueue left :: pre, left', ?_, ?_⟩
            · intro e he
              rcases List.mem_cons.mp he with he | he
              · exact ⟨left, he⟩
              · exact hpre e he
            · rw [hev]
              simp

/-! ### The conflict-free run shape -/

lemma prePushLoop_clear_shape (env : Env) (hup : ∀ s, env.uploadErr s = none) :
    ∀ (stdin : List String) (my : List String),
      (∀ left ∈ effectiveLefts stdin, lineClear env left) →
      ∃ myF,
        prePushLoop env [] my stdin =
          ⟨(effectiveLefts stdin).map Event.enqueue ++ ownedReport myF ++
              [Event.await, Event.exited (if env.awaitOk then 0 else 2)],
            (if env.awaitOk then 0 else 2), [], myF⟩ := by
  intro stdin
  induction stdin with
  | nil =>
    intro my _
    refine ⟨my, ?_⟩
    rw [prePushLoop_nil]
    simp [effectiveLefts]
  | cons line rest ih =>
    intro my hclear
    by_cases hb : trimSpace line.toList = []
    · rw [prePushLoop_blank env [] my line rest hb]
      have heff : effectiveLefts (line :: rest) = effectiveLefts rest := by
        simp only [effectiveLefts]
        rw [if_pos hb]
      rw [heff] at hclear ⊢
      exact ih my hclear
    · by_cases hsent : (decodeRefs (String.mk (trimSpace line.toList))).1 =
          prePushDeleteBranch
      · rw [prePushLoop_sentinel env [] my line rest hb hsent]
        have heff : effectiveLefts (line :: rest) = effectiveLefts rest := by
          simp only [effectiveLefts]
          rw [if_neg hb, if_pos hsent]
        rw [heff] at hclear ⊢
        exact ih my hclear
      · obtain ⟨left, hleft⟩ : ∃ x, (decodeRefs (String.mk (trimSpace line.toList))).1 = x :=
          ⟨_, rfl⟩
        rw [hleft] at hsent
        have heff : effectiveLefts (line :: rest) = left :: effectiveLefts rest := by
          simp only [effectiveLefts]
          rw [if_neg hb, hleft, if_neg hsent]
        rw [heff] at hclear ⊢
        have hlc : lineClear env left := hclear left (List.mem_cons_self _ _)
        have hclear' : ∀ l ∈ effectiveLefts rest, lineClear env l :=
          fun l hl => hclear l (List.mem_cons_of_mem _ hl)
        obtain ⟨st, hst⟩ : ∃ y, evalPointers env (env.pointers left) ([], my) = y :=
          ⟨_, rfl⟩
        have hc0 : st.1 = [] := by
          rw [← hst]
          exact evalPointers_clear env _ [] my hlc
        have hc : ¬ st.1.length > 0 := by rw [hc0]; simp
        rw [prePushLoop_enqueue env [] my line rest left st hb hleft hsent hst hc (hup left)]
        dsimp only
        rw [hc0]
        obtain ⟨myF, hF⟩ := ih st.2 hclear'
        refine ⟨myF, ?_⟩
        rw [hF]
        simp

/-! ### The drain-barrier trace shape -/

lemma prePushLoop_await_shape (env : Env) :
    ∀ (stdin : List String) (cf my : List String),
      Event.await ∈ (prePushLoop env cf my stdin).events →
      ∃ pre,
        (prePushLoop env cf my stdin).events =
          pre ++ ownedReport (prePushLoop env cf my stdin).myLocks ++
            [Event.await, Event.exited (if env.awaitOk then 0 else 2)] := by
  intro stdin
  induction stdin with
  | nil =>
    intro cf my _
    rw [prePushLoop_nil]
    exact ⟨[], by simp⟩
  | cons line rest ih =>
    intro cf my h
    by_cases hb : trimSpace line.toList = []
    · rw [prePushLoop_blank env cf my line rest hb] at h ⊢
      exact ih cf my h
    · by_cases hsent : (decodeRefs (String.mk (trimSpace line.toList))).1 =
          prePushDeleteBranch
      · rw [prePushLoop_sentinel env cf my line rest hb hsent] at h ⊢
        exact ih cf my h
      · obtain ⟨left, hleft⟩ : ∃ x, (decodeRefs (String.mk (trimSpace line.toList))).1 = x :=
          ⟨_, rfl⟩
        rw [hleft] at hsent
        obtain ⟨st, hst⟩ : ∃ y, evalPointers env (env.pointers left) (cf, my) = y :=
          ⟨_, rfl⟩
        by_cases hc : st.1.length > 0
        · rw [prePushLoop_abort env cf my line rest left st hb hleft hsent hst hc] at h
          simp at h
        · cases hup : env.uploadErr left with
          | some e =>
            rw [prePushLoop_scanError env cf my line rest left st e hb hleft hsent hst hc hup] at h
            simp at h
          | none =>
            rw [prePushLoop_enqueue env cf my line rest left st hb hleft hsent hst hc hup] at h ⊢
            dsimp only at h ⊢
            have h' : Event.await ∈ (prePushLoop env st.1 st.2 rest).events := by
              rcases List.mem_cons.mp h with h | h
              · cases h
              · exact h
            obtain ⟨pre, hev⟩ := ih st.1 st.2 h'
            refine ⟨Event.enqueue left :: pre, ?_⟩
            rw [hev]
            simp

/-! ### Helper lemmas about enqueued revisions -/

lemma enqueuedLefts_append (a b : List Event) :
    enqueuedLefts (a ++ b) = enqueuedLefts a ++ enqueuedLefts b := by
  simp [enqueuedLefts, List.filterMap_append]

lemma enqueuedLefts_map_enqueue (L : List String) :
    enqueuedLefts (L.map Event.enqueue) = L := by
  induction L with
  | nil => rfl
  | cons a l ih => simpa [enqueuedLefts, List.filterMap_cons] using ih

lemma enqueuedLefts_map_pushing (L : List String) :
    enqueuedLefts (L.map Event.pushingFile) = [] := by
  induction L with
  | nil => rfl
  | cons a l ih => simp [enqueuedLefts, List.filterMap_cons]

lemma enqueuedLefts_ownedReport (m : List String) :
    enqueuedLefts (ownedReport m) = [] := by
  by_cases hm : m.length > 0
  · rw [ownedReport, if_pos hm]
    simp [enqueuedLefts, List.filterMap_cons]
  · rw [ownedReport, if_neg hm]
    rfl

lemma enqueuedLefts_drain (c : Nat) :
    enqueuedLefts [Event.await, Event.exited c] = [] := rfl

/-! ### Claim theorems -/

/-- C1: whenever the conflict set is non-empty after evaluating an input
line, the hook prints the remote name and every conflicting path, exits
with the non-zero status 1 immediately after that report, and abandons the
run: nothing follows the exit in the trace (no further line is read, no
further enqueue happens), everything before the report is only the
enqueues of earlier lines, and the drain barrier is never reached (the
hook does not wait for uploads already dispatched). -/
theorem c1_conflict_abort (env : Env) (stdin : List String)
    (h : (prePushCommand env stdin).lockConflicts ≠ []) :
    (prePushCommand env stdin).exitCode = 1 ∧
    Event.await ∉ (prePushCommand env stdin).events ∧
    ∃ pre left,
      (∀ e ∈ pre, ∃ s, e = Event.enqueue s) ∧
      (prePushCommand env stdin).events =
        pre ++ Event.lockedFilesError left env.CurrentRemote ::
          ((prePushCommand env stdin).lockConflicts.map Event.lockedFile ++
            [Event.exited 1]) := by
  obtain ⟨hexit, pre, left, hpre, hev⟩ := prePushLoop_conflict_shape env stdin [] h
  refine ⟨hexit, ?_, pre, left, hpre, hev⟩
  show Event.await ∉ (prePushLoop env [] [] stdin).events
  rw [hev]
  intro hmem
  rcases List.mem_append.mp hmem with hm | hm
  · obtain ⟨s, hs⟩ := hpre _ hm
    cases hs
  · rcases List.mem_cons.mp hm with hm | hm
    · cases hm
    · rcases List.mem_append.mp hm with hm | hm
      · obtain ⟨p, -, hp⟩ := List.mem_map.mp hm
        cases hp
      · rcases List.mem_cons.mp hm with hm | hm
        · cases hm
        · simp at hm

/-- Witness for C1: a concrete conflicting run (another user's lock found
for the touched object of the single input line) exits 1. -/
theorem c1_conflict_abort_witness :
    (prePushCommand envOtherOwner ["refs/heads/b2 sha2 refs/heads/b2 r2"]).lockConflicts ≠ [] ∧
    (prePushCommand envOtherOwner ["refs/heads/b2 sha2 refs/heads/b2 r2"]).exitCode = 1 :=
  ⟨by decide,
    (c1_conflict_abort envOtherOwner ["refs/heads/b2 sha2 refs/heads/b2 r2"] (by decide)).1⟩

/-- C2 (code bug): the claim says the lock index maps object path to lock
record; the source instead builds the map keyed by the lock's `Name`
field — the owner's name, the very field the classification then compares
with the committer's name — so a lookup by touched-object path can never
find a lock whose key is a person's name.  Evaluated at the spec's own
conflict scenario (`big.psd` locked by Alice, committer Bob, update
`abc123` touching `big.psd`): the index holds the lock under `Alice` and
nothing under `big.psd`, no conflict is recorded, one enqueue happens and
the run exits 0 instead of aborting. -/
theorem c2_lock_index_keyed_by_owner_name :
    lockSet envMiskeyed.locks "big.psd" = none ∧
    lockSet envMiskeyed.locks "Alice" =
      some { Id := "1", Path := "big.psd", Name := "Alice", Email := "alice@example.com" } ∧
    (prePushCommand envMiskeyed ["refs/heads/main abc123 refs/heads/main def456"]).lockConflicts = [] ∧
    (prePushCommand envMiskeyed ["refs/heads/main abc123 refs/heads/main def456"]).exitCode = 0 ∧
    (prePushCommand envMiskeyed ["refs/heads/main abc123 refs/heads/main def456"]).events =
      [Event.enqueue "abc123", Event.await, Event.exited 0] :=
  ⟨rfl, rfl, rfl, rfl, rfl⟩

/-- C9: decoding is invariant under stripping leading and trailing
whitespace from the input line, because `decodeRefs` trims its argument
itself and trimming is idempotent. -/
theorem c9_decode_trim_invariant (s : String) :
    decodeRefs (String.mk (trimSpace s.toList)) = decodeRefs s :=
  decodeRefs_trim s

/-- C3 (code bug): the claim — when no touched object anywhere in the
input is locked by another user, each non-deletion line yields exactly one
enqueue and the hook exits 0 only after a successful drain — is the spec's
conflict-free progress property, and the code violates it through the same
slip as C2: the lock map is keyed by the lock owner's name and probed with
the touched object's name.  Evaluated at a run where the only active lock
is another user's lock on the untouched path `secret.bin` — so no touched
object is locked by anyone: no lock's path equals any touched object's
path or name — but that owner is named `alice` and the push touches a file
named `alice`: the probe collides, a spurious conflict `alice` is
recorded, and the single non-deletion update line produces zero enqueues
and exit status 1 instead of one enqueue and a drained exit 0. -/
theorem c3_unlocked_objects_still_abort :
    (∀ p ∈ envOwnerNameCollision.pointers "sha1", ∀ l ∈ envOwnerNameCollision.locks,
      ¬ l.Path = p.Path ∧ ¬ l.Path = p.Name) ∧
    effectiveLefts ["refs/heads/b sha1 refs/heads/b r1"] = ["sha1"] ∧
    enqueuedLefts
      (prePushCommand envOwnerNameCollision ["refs/heads/b sha1 refs/heads/b r1"]).events = [] ∧
    (prePushCommand envOwnerNameCollision ["refs/heads/b sha1 refs/heads/b r1"]).exitCode = 1 ∧
    (prePushCommand envOwnerNameCollision ["refs/heads/b sha1 refs/heads/b r1"]).lockConflicts =
      ["alice"] := by
  refine ⟨by decide, by decide, rfl, rfl, rfl⟩

/-- C4 (refuting counterexample): the controller discards the decoded
remote revision (`left, _ := decodeRefs(line)`), so the dispatcher is
invoked with the local revision only.  On the claimed input the decoder
does produce the pair (`abc123`, `^def456`), but the entire run is
unchanged when the remote sha `def456` is replaced by `zzz999`, and the
only enqueue event carries `abc123` alone: the dispatcher is not
instructed with the `^def456` remote exclusion. -/
theorem c4_remote_exclusion_discarded :
    decodeRefs "refs/heads/main abc123 refs/heads/main def456" = ("abc123", "^def456") ∧
    prePushCommand envNoLocks ["refs/heads/main abc123 refs/heads/main def456"] =
      prePushCommand envNoLocks ["refs/heads/main abc123 refs/heads/main zzz999"] ∧
    (prePushCommand envNoLocks ["refs/heads/main abc123 refs/heads/main def456"]).events =
      [Event.enqueue "abc123", Event.await, Event.exited 0] :=
  ⟨rfl, rfl, rfl⟩

/-- C4 (amended): for the input line
`refs/heads/main abc123 refs/heads/main def456` with no locks registered,
the hook performs exactly one enqueue, whose argument is the local
revision `abc123`, and exits 0; the decoder computes the remote exclusion
`^def456` but the controller discards it, so the dispatch depends on the
local revision only. -/
theorem c4_single_enqueue_local_only :
    (prePushCommand envNoLocks ["refs/heads/main abc123 refs/heads/main def456"]).events =
      [Event.enqueue "abc123", Event.await, Event.exited 0] ∧
    (prePushCommand envNoLocks ["refs/heads/main abc123 refs/heads/main def456"]).exitCode = 0 ∧
    (decodeRefs "refs/heads/main abc123 refs/heads/main def456").2 = "^def456" :=
  ⟨rfl, rfl, rfl⟩

/-- C5: for every input line whose trimmed form has at least two
space-separated tokens, the decoder returns token 1 as the local revision
and, when at least four tokens exist, token 3 prefixed with a caret as the
remote revision, the empty string otherwise.  Purity and determinism are
definitional: `decodeRefs` is a function of the input string alone. -/
theorem c5_decodeRefs_tokens (s : String)
    (h : 1 < (splitChar ' ' (trimSpace s.toList)).length) :
    (decodeRefs s).1 = String.mk ((splitChar ' ' (trimSpace s.toList)).get ⟨1, h⟩) ∧
    (decodeRefs s).2 =
      if h4 : 3 < (splitChar ' ' (trimSpace s.toList)).length
      then String.mk ('^' :: (splitChar ' ' (trimSpace s.toList)).get ⟨3, h4⟩)
      else "" := by
  constructor
  · simp only [decodeRefs]
    rw [if_pos h, getD_of_lt _ 1 [] h]
  · simp only [decodeRefs]
    by_cases h4 : 3 < (splitChar ' ' (trimSpace s.toList)).length
    · rw [dif_pos h4, if_pos h4, getD_of_lt _ 3 [] h4]
    · rw [dif_neg h4, if_neg h4]

/-- Witness for C5: the four-token line `a b c d` decodes to local `b`
and remote `^d`. -/
theorem c5_decodeRefs_tokens_witness :
    1 < (splitChar ' ' (trimSpace "a b c d".toList)).length ∧
    (decodeRefs "a b c d").1 = "b" ∧ (decodeRefs "a b c d").2 = "^d" := by
  have h := c5_decodeRefs_tokens "a b c d" (by decide)
  exact ⟨by decide, h.1.trans (by decide), h.2.trans (by decide)⟩

/-- C6: an input line whose decoded local revision is the 40-zero deletion
sentinel is skipped entirely, for every environment and accumulator state:
running the loop on that line followed by the remaining lines equals
running it on the remaining lines alone — no enqueue, no conflict
evaluation, no state change for that line. -/
theorem c6_deletion_sentinel_skipped (env : Env) (cf my : List String)
    (line : String) (rest : List String)
    (h : (decodeRefs line).1 = prePushDeleteBranch) :
    prePushLoop env cf my (line :: rest) = prePushLoop env cf my rest := by
  by_cases hb : trimSpace line.toList = []
  · exact prePushLoop_blank env cf my line rest hb
  · refine prePushLoop_sentinel env cf my line rest hb ?_
    rw [decodeRefs_trim]
    exact h

/-- Witness for C6: the spec's deletion line is skipped even though a lock
held by another user exists. -/
theorem c6_deletion_sentinel_skipped_witness :
    (decodeRefs "refs/heads/topic 0000000000000000000000000000000000000000 refs/heads/topic def456").1 =
      prePushDeleteBranch ∧
    prePushLoop envMiskeyed [] []
        ["refs/heads/topic 0000000000000000000000000000000000000000 refs/heads/topic def456"] =
      prePushLoop envMiskeyed [] [] [] :=
  ⟨by decide,
    c6_deletion_sentinel_skipped envMiskeyed [] []
      "refs/heads/topic 0000000000000000000000000000000000000000 refs/heads/topic def456" []
      (by decide)⟩

/-- C7 (refuting counterexample): the non-blank single-token line `junk`
decodes to an empty local revision, but the controller does not treat it
as nothing-to-do: the line falls through the deletion-sentinel check and
an enqueue with empty local revision is performed. -/
theorem c7_malformed_line_still_enqueues :
    (decodeRefs "junk").1 = "" ∧
    (prePushCommand envNoLocks ["junk"]).events =
      [Event.enqueue "", Event.await, Event.exited 0] :=
  ⟨rfl, rfl⟩

/-- C7 (amended): a non-blank input line with fewer than two tokens
decodes to an empty local revision and raises no error, but the controller
does not special-case it: the line is processed like any other
non-deletion update, so (when the evaluation of the empty revision's
touched objects finds no conflict and the scan call succeeds) an enqueue
with empty local revision occurs. -/
theorem c7_malformed_line_empty_left (s : String) (env : Env) (rest : List String)
    (htok : (splitChar ' ' (trimSpace s.toList)).length < 2)
    (hnb : ¬ trimSpace s.toList = [])
    (hclear : lineClear env "")
    (hupl : env.uploadErr "" = none) :
    (decodeRefs s).1 = "" ∧
    Event.enqueue "" ∈ (prePushCommand env (s :: rest)).events := by
  have hleft : (decodeRefs s).1 = "" := by
    simp only [decodeRefs]
    rw [if_neg (by omega : ¬ 1 < (splitChar ' ' (trimSpace s.toList)).length)]
  refine ⟨hleft, ?_⟩
  have hleft' : (decodeRefs (String.mk (trimSpace s.toList))).1 = "" := by
    rw [decodeRefs_trim]
    exact hleft
  have hsent : ¬ ("" : String) = prePushDeleteBranch := by decide
  obtain ⟨st, hst⟩ : ∃ y, evalPointers env (env.pointers "") ([], []) = y := ⟨_, rfl⟩
  have hc0 : st.1 = [] := by
    rw [← hst]
    exact evalPointers_clear env _ [] [] hclear
  have hc : ¬ st.1.length > 0 := by rw [hc0]; simp
  show Event.enqueue "" ∈ (prePushLoop env [] [] (s :: rest)).events
  rw [prePushLoop_enqueue env [] [] s rest "" st hnb hleft' hsent hst hc hupl]
  exact List.mem_cons_self _ _

/-- Witness for C7 (amended): the single-token line `junk` yields an
enqueue with empty local revision in a lock-free environment. -/
theorem c7_malformed_line_empty_left_witness :
    (splitChar ' ' (trimSpace "junk".toList)).length < 2 ∧
    Event.enqueue "" ∈ (prePushCommand envNoLocks ["junk"]).events :=
  ⟨by decide,
    (c7_malformed_line_empty_left "junk" envNoLocks [] (by decide) (by decide)
      (by decide) rfl).2⟩

/-- C8: when line 1 evaluates conflict-free and is dispatched and line 2
evaluates with a conflict, the whole run exits 1 and the conflict report
lists exactly line 2's conflicting objects (the conflicts of line 2
evaluated from an empty conflict set): line 1 contributes an enqueue but
nothing to the report. -/
theorem c8_second_line_conflicts_only (env : Env) (l1 l2 : String)
    (left1 left2 : String)
    (h1b : ¬ trimSpace l1.toList = [])
    (h1l : (decodeRefs (String.mk (trimSpace l1.toList))).1 = left1)
    (h1s : ¬ left1 = prePushDeleteBranch)
    (h1c : lineClear env left1)
    (h1u : env.uploadErr left1 = none)
    (h2b : ¬ trimSpace l2.toList = [])
    (h2l : (decodeRefs (String.mk (trimSpace l2.toList))).1 = left2)
    (h2s : ¬ left2 = prePushDeleteBranch)
    (h2c : (evalPointers env (env.pointers left2) ([], [])).1 ≠ []) :
    (prePushCommand env [l1, l2]).exitCode = 1 ∧
    (prePushCommand env [l1, l2]).lockConflicts =
      (evalPointers env (env.pointers left2) ([], [])).1 ∧
    (prePushCommand env [l1, l2]).events =
      Event.enqueue left1 ::
        Event.lockedFilesError left2 env.CurrentRemote ::
          ((evalPointers env (env.pointers left2) ([], [])).1.map Event.lockedFile ++
            [Event.exited 1]) := by
  obtain ⟨st1, hst1⟩ : ∃ y, evalPointers env (env.pointers left1) ([], []) = y := ⟨_, rfl⟩
  have h1c0 : st1.1 = [] := by
    rw [← hst1]
    exact evalPointers_clear env _ [] [] h1c
  have h1cn : ¬ st1.1.length > 0 := by rw [h1c0]; simp
  have hrun : prePushCommand env [l1, l2] =
      { prePushLoop env st1.1 st1.2 [l2] with
          events := Event.enqueue left1 :: (prePushLoop env st1.1 st1.2 [l2]).events } :=
    prePushLoop_enqueue env [] [] l1 [l2] left1 st1 h1b h1l h1s hst1 h1cn h1u
  rw [h1c0] at hrun
  obtain ⟨st2, hst2⟩ : ∃ y, evalPointers env (env.pointers left2) ([], st1.2) = y :=
    ⟨_, rfl⟩
  have h2c' : st2.1 = (evalPointers env (env.pointers left2) ([], [])).1 := by
    rw [← hst2, evalPointers_decomp]
    simp
  have h2len : st2.1.length > 0 := by
    rw [h2c']
    exact List.length_pos.mpr h2c
  have habort : prePushLoop env [] st1.2 [l2] =
      ⟨Event.lockedFilesError left2 env.CurrentRemote ::
          (st2.1.map Event.lockedFile ++ [Event.exited 1]), 1, st2.1, st2.2⟩ :=
    prePushLoop_abort env [] st1.2 l2 [] left2 st2 h2b h2l h2s hst2 h2len
  rw [habort] at hrun
  rw [hrun]
  rw [h2c']
  exact ⟨rfl, rfl, rfl⟩

/-- Witness for C8: line 1 (`sha1`) touches nothing, line 2 (`sha2`)
touches an object locked by another user; the run exits 1. -/
theorem c8_second_line_conflicts_only_witness :
    (evalPointers envOtherOwner (envOtherOwner.pointers "sha2") ([], [])).1 ≠ [] ∧
    (prePushCommand envOtherOwner
      ["refs/heads/b1 sha1 refs/heads/b1 r1", "refs/heads/b2 sha2 refs/heads/b2 r2"]).exitCode = 1 :=
  ⟨by decide,
    (c8_second_line_conflicts_only envOtherOwner
      "refs/heads/b1 sha1 refs/heads/b1 r1" "refs/heads/b2 sha2 refs/heads/b2 r2"
      "sha1" "sha2" (by decide) (by decide) (by decide) (by decide) rfl
      (by decide) (by decide) (by decide) (by decide)).1⟩

/-- C10: in every run that reaches the drain barrier (equivalently, that
finishes the read loop without aborting), the owned-lock informational
report — the `Pushing your locked files:` header and each owned path —
appears in the trace immediately before the `await` event; this holds
whether the drain succeeds (exit 0) or fails (non-zero exit), so the
report is emitted even in runs whose drain subsequently fails. -/
theorem c10_owned_report_before_await (env : Env) (stdin : List String)
    (h : Event.await ∈ (prePushCommand env stdin).events) :
    ∃ pre,
      (prePushCommand env stdin).events =
        pre ++ ownedReport (prePushCommand env stdin).myLocks ++
          [Event.await, Event.exited (if env.awaitOk then 0 else 2)] :=
  prePushLoop_await_shape env stdin [] [] h

/-- Witness for C10: a run with one owned lock and a failing drain still
reaches the barrier, with the owned report in the trace before it. -/
theorem c10_owned_report_before_await_witness :
    Event.await ∈
      (prePushCommand envOwnedLockDrainFail ["refs/heads/b sha1 refs/heads/b r1"]).events ∧
    ∃ pre,
      (prePushCommand envOwnedLockDrainFail ["refs/heads/b sha1 refs/heads/b r1"]).events =
        pre ++ ownedReport
            (prePushCommand envOwnedLockDrainFail ["refs/heads/b sha1 refs/heads/b r1"]).myLocks ++
          [Event.await, Event.exited (if envOwnedLockDrainFail.awaitOk then 0 else 2)] :=
  ⟨by decide,
    c10_owned_report_before_await envOwnedLockDrainFail
      ["refs/heads/b sha1 refs/heads/b r1"] (by decide)⟩

end PrePush
